import Mathlib

/-!
Verification of the Overwatch League schedule parser (main.go) against its
natural-language specification.

The development shallowly embeds the decision logic of `main.go`:

* the row/cell model (`Td`, `Tr`, `HtmlTable`) and its field lookup
  (`Tr.GetField`, `Tr.ToTranslation`, main.go lines 187 to 223);
* the ampersand pre-processing of `parseArticleRawHtml` (line 105) as
  `escapeAmp`;
* the structural decoding of a markup fragment, modelled on well-formed
  element trees (`Xml`), following what Go `encoding/xml` does for the
  `HtmlTable` struct: the root must be a `table` element, `thead` content is
  skipped because the `THead` field has interface type, each `tbody` child
  contributes its `tr` children in order;
* the document navigation of `parsePage` (lines 66 to 85) over a generic
  JSON value (`Json`), with Go type-assertion panics modelled as `none`;
* the time resolution of `ToTypedTranslation` (lines 163 to 185), including
  an executable model of the two Go layouts `01-02-2006 3:04 PM` and
  `01-02-2006 3:04 PM MST`, of `America/Los_Angeles` seasonal offsets
  (post-2007 US daylight-saving rule) and of `Asia/Almaty` offsets
  (UTC+6, UTC+5 from 2024-03-01 per tzdata 2024a);
* the stable sort of `main` (lines 47 to 49): `sort.SliceStable` is
  documented to produce the stable ascending reordering for the supplied
  `less` function, which is what the insertion sort `sortTranslations`
  computes.

Instants are modelled as seconds since the Unix epoch (`Int`); every time
value produced by this program has zero nanoseconds because the layouts
carry no fractional seconds, so second precision is exact. Go strings here
hold only ASCII, so `String.length` and byte length agree. The lookup of a
zone abbreviation against the process-local zone database (`time.Local`,
consulted by `time.Parse` for the `MST` layout element) is passed in as an
explicit function `lk : String → Option Int`, since it depends on the host
environment; theorems quantify over it.
-/

/-! ## Calendar arithmetic (proleptic Gregorian, as Go `time.Date`) -/

/-- Days from the Unix epoch to the civil date `y-mo-d`
(standard civil-from-days inverse, as used by Go `time.Date`). -/
def daysFromCivil (y mo d : Nat) : Int :=
  let y' : Int := if mo ≤ 2 then (y : Int) - 1 else (y : Int)
  let era : Int := Int.ediv y' 400
  let yoe : Int := y' - era * 400
  let mp : Int := if 2 < mo then (mo : Int) - 3 else (mo : Int) + 9
  let doy : Int := Int.ediv (153 * mp + 2) 5 + (d : Int) - 1
  let doe : Int := yoe * 365 + Int.ediv yoe 4 - Int.ediv yoe 100 + doy
  era * 146097 + doe - 719468

/-- A wall-clock date and time, hour already on the 24-hour scale. -/
structure CivilTime where
  year : Nat
  month : Nat
  day : Nat
  hour : Nat
  minute : Nat
deriving DecidableEq

/-- Unix seconds of a civil time read as UTC (Go `time.Date(..., time.UTC)`). -/
def civilUnixUTC (t : CivilTime) : Int :=
  daysFromCivil t.year t.month t.day * 86400 + (t.hour : Int) * 3600 + (t.minute : Int) * 60

/-- Leap year test (Go `isLeap`). -/
def isLeap (y : Nat) : Bool :=
  y % 4 == 0 && (y % 100 != 0 || y % 400 == 0)

/-- Number of days of month `mo` in year `y` (Go `daysIn`). -/
def daysIn (mo y : Nat) : Nat :=
  if mo == 2 then (if isLeap y then 29 else 28)
  else if mo == 4 || mo == 6 || mo == 9 || mo == 11 then 30
  else 31

/-- Day of week of a civil date, 0 = Sunday (1970-01-01 was a Thursday). -/
def weekday (y mo d : Nat) : Int :=
  Int.emod (daysFromCivil y mo d + 4) 7

/-- Day of month of the first Sunday of month `mo` in year `y`. -/
def firstSundayOf (y mo : Nat) : Int :=
  1 + Int.emod (7 - weekday y mo 1) 7

/-! ## Instants and zones -/

/-- A Go `time.Time` as this program uses it: the absolute instant in Unix
seconds plus the UTC offset (seconds) of the zone the value is expressed in.
Nanoseconds are always zero here, and the zone name only matters for output
formatting, so neither is carried. -/
structure GoTime where
  unix : Int
  offset : Int
deriving DecidableEq

/-- Go `time.Time.Before`: comparison of absolute instants only. -/
def GoTime.Before (a b : GoTime) : Bool :=
  decide (a.unix < b.unix)

/-- Go `time.Time.In(loc)`: re-express the same instant in another zone.
A location is modelled as its offset function over absolute instants. -/
def GoTime.In (t : GoTime) (loc : Int → Int) : GoTime :=
  { unix := t.unix, offset := loc t.unix }

/-- Whether `America/Los_Angeles` daylight saving is active at a local wall
time (post-2007 US rule: from the second Sunday of March 02:00 to the first
Sunday of November 02:00; all inputs of this program are modern dates). -/
def laIsDST (t : CivilTime) : Bool :=
  let key : Int := ((t.month : Int) * 32 + (t.day : Int)) * 1440 + (t.hour : Int) * 60 + (t.minute : Int)
  let startKey : Int := (3 * 32 + (firstSundayOf t.year 3 + 7)) * 1440 + 120
  let endKey : Int := (11 * 32 + firstSundayOf t.year 11) * 1440 + 120
  decide (startKey ≤ key) && decide (key < endKey)

/-- UTC offset (seconds) of `America/Los_Angeles` at a local wall time:
-7h during daylight saving, -8h otherwise. -/
def laOffset (t : CivilTime) : Int :=
  if laIsDST t then -25200 else -28800

/-- The instant `Asia/Almaty` moved from UTC+6 to UTC+5
(2024-03-01 00:00 +06, tzdata 2024a). -/
def almatyCutover : Int :=
  civilUnixUTC { year := 2024, month := 2, day := 29, hour := 18, minute := 0 }

/-- UTC offset (seconds) of `Asia/Almaty` at an absolute instant. -/
def almatyOffset (unix : Int) : Int :=
  if unix < almatyCutover then 21600 else 18000

/-! ## The two Go time layouts used by `ToTypedTranslation`

`time.ParseInLocation("01-02-2006 3:04 PM", s, laLocation)` and
`time.Parse("01-02-2006 3:04 PM MST", s)`, modelled on character lists
exactly as Go's `time.Parse` consumes them: fixed two-digit month, day and
minute, four-digit year, one- or two-digit hour, upper-case meridiem, and
for the second layout a zone abbreviation recognised by Go's
`parseTimeZone`. Go validates month, day (against the month length),
hour (at most 12) and minute, and rejects trailing input. -/

/-- Numeric value of a decimal digit character. -/
def digitVal (c : Char) : Option Nat :=
  if c.isDigit then some (c.toNat - 48) else none

/-- Exactly two digits (Go `getnum` with `fixed = true`). -/
def getnum2 : List Char → Option (Nat × List Char)
  | c1 :: c2 :: rest =>
    match digitVal c1, digitVal c2 with
    | some a, some b => some (a * 10 + b, rest)
    | _, _ => none
  | _ => none

/-- Exactly four digits (Go `stdLongYear`). -/
def getnum4 : List Char → Option (Nat × List Char)
  | c1 :: c2 :: c3 :: c4 :: rest =>
    match digitVal c1, digitVal c2, digitVal c3, digitVal c4 with
    | some a, some b, some c, some d => some (((a * 10 + b) * 10 + c) * 10 + d, rest)
    | _, _, _, _ => none
  | _ => none

/-- One digit, then a second one if present (Go `getnum` with `fixed = false`). -/
def getnum1or2 : List Char → Option (Nat × List Char)
  | [] => none
  | c1 :: rest =>
    match digitVal c1 with
    | none => none
    | some a =>
      match rest with
      | c2 :: rest2 =>
        match digitVal c2 with
        | some b => some (a * 10 + b, rest2)
        | none => some (a, rest)
      | [] => some (a, [])

/-- Require one literal character. -/
def expectChar (c : Char) : List Char → Option (List Char)
  | x :: rest => if x = c then some rest else none
  | [] => none

/-- The layout element `PM`: exactly the upper-case strings, result is
`true` for PM (Go `lookup` of `stdPM`). -/
def parseMeridiem : List Char → Option (Bool × List Char)
  | 'P' :: 'M' :: rest => some (true, rest)
  | 'A' :: 'M' :: rest => some (false, rest)
  | _ => none

/-- Parse `01-02-2006 3:04 PM` with Go's range validation, returning the
wall-clock time (hour adjusted by the meridiem as Go does) and the
remaining input. -/
def parseLayoutBody (cs : List Char) : Option (CivilTime × List Char) :=
  match getnum2 cs with
  | none => none
  | some (mo, cs) =>
  match expectChar '-' cs with
  | none => none
  | some cs =>
  match getnum2 cs with
  | none => none
  | some (d, cs) =>
  match expectChar '-' cs with
  | none => none
  | some cs =>
  match getnum4 cs with
  | none => none
  | some (y, cs) =>
  match expectChar ' ' cs with
  | none => none
  | some cs =>
  match getnum1or2 cs with
  | none => none
  | some (h12, cs) =>
  match expectChar ':' cs with
  | none => none
  | some cs =>
  match getnum2 cs with
  | none => none
  | some (mi, cs) =>
  match expectChar ' ' cs with
  | none => none
  | some cs =>
  match parseMeridiem cs with
  | none => none
  | some (pm, cs) =>
  if mo < 1 || 12 < mo then none
  else if d < 1 || daysIn mo y < d then none
  else if 12 < h12 then none
  else if 59 < mi then none
  else
    let h := if pm then (if h12 < 12 then h12 + 12 else h12)
             else (if h12 == 12 then 0 else h12)
    some ({ year := y, month := mo, day := d, hour := h, minute := mi }, cs)

/-- `time.ParseInLocation("01-02-2006 3:04 PM", s, laLocation)`
(main.go line 167): the whole input must be consumed, and the wall clock is
anchored using the Los Angeles offset in force at that local time. -/
def goParseInLocationLA (s : String) : Option GoTime :=
  match parseLayoutBody s.data with
  | some (t, []) =>
    let off := laOffset t
    some { unix := civilUnixUTC t - off, offset := off }
  | _ => none

/-! ## The `MST` layout element (Go `parseTimeZone`) and zone resolution -/

/-- Upper-case ASCII letter test. -/
def isUpper (c : Char) : Bool :=
  'A' ≤ c && c ≤ 'Z'

/-- Value of a list of decimal digits. -/
def digitsVal (ds : List Char) : Nat :=
  ds.foldl (fun acc c => acc * 10 + (c.toNat - 48)) 0

/-- Go `parseSignedOffset`: a sign, then at least one digit whose value is
at most 24; returns the consumed characters and the rest. -/
def parseSignedOffset (cs : List Char) : Option (List Char × List Char) :=
  match cs with
  | [] => none
  | c :: rest =>
    if c = '+' || c = '-' then
      match rest.span Char.isDigit with
      | ([], _) => none
      | (ds, rest2) => if 24 < digitsVal ds then none else some (c :: ds, rest2)
    else none

/-- Go `parseTimeZone`: the forms a zone abbreviation may take in parsed
input. Returns the abbreviation's characters and the remaining input. -/
def parseTimeZone (cs : List Char) : Option (List Char × List Char) :=
  if cs.length < 3 then none
  else
    match cs with
    | 'C' :: 'h' :: 'S' :: 'T' :: rest => some (['C', 'h', 'S', 'T'], rest)
    | 'M' :: 'e' :: 'S' :: 'T' :: rest => some (['M', 'e', 'S', 'T'], rest)
    | 'G' :: 'M' :: 'T' :: rest =>
      (match parseSignedOffset rest with
       | some (ds, rest2) => some ('G' :: 'M' :: 'T' :: ds, rest2)
       | none => some (['G', 'M', 'T'], rest))
    | '+' :: _ => parseSignedOffset cs
    | '-' :: _ => parseSignedOffset cs
    | _ =>
      let n := min (cs.takeWhile isUpper).length 6
      if n = 3 then some (cs.take 3, cs.drop 3)
      else if n = 4 then
        (if cs.take 4 = ['W', 'I', 'T', 'A'] || cs.get? 3 = some 'T' then
          some (cs.take 4, cs.drop 4)
        else none)
      else if n = 5 then
        (if cs.get? 4 = some 'T' then some (cs.take 5, cs.drop 5) else none)
      else none

/-- Signed hour offset of a fabricated `GMT±h` zone name, in seconds
(Go reruns `atoi` on the name's tail; only reached for names produced by
`parseTimeZone`, so the tail is a sign and digits). -/
def gmtNameOffset (tail : List Char) : Int :=
  match tail with
  | '-' :: ds => -(digitsVal ds : Int) * 3600
  | '+' :: ds => (digitsVal ds : Int) * 3600
  | ds => (digitsVal ds : Int) * 3600

/-- Syntactic phase of `time.Parse("01-02-2006 3:04 PM MST", s)`: the date
and clock fields, the space, then a zone abbreviation, with no trailing
input. Returns the wall clock and the abbreviation. -/
def parseMSTText (s : String) : Option (CivilTime × String) :=
  match parseLayoutBody s.data with
  | some (t, rest) =>
    (match expectChar ' ' rest with
     | some rest2 =>
       (match parseTimeZone rest2 with
        | some (zn, []) => some (t, String.mk zn)
        | _ => none)
     | none => none)
  | _ => none

/-- Zone-resolution phase of Go `time.Parse` for a named abbreviation:
if the process-local zone knows the name, the wall clock is shifted by that
offset into an absolute instant; otherwise Go fabricates a fixed zone with
the given name and offset 0 (or the stated hours for `GMT±h`) and keeps the
wall clock read as UTC, without shifting it by the fabricated offset. -/
def resolveZone (lk : String → Option Int) (t : CivilTime) (zoneName : String) : GoTime :=
  match lk zoneName with
  | some off => { unix := civilUnixUTC t - off, offset := off }
  | none =>
    let zn := zoneName.data
    let off := if 3 < zn.length && zn.take 3 = ['G', 'M', 'T'] then gmtNameOffset (zn.drop 3) else 0
    { unix := civilUnixUTC t, offset := off }

/-- `time.Parse("01-02-2006 3:04 PM MST", s)` (main.go line 172), with the
process-local abbreviation lookup passed in as `lk`. -/
def goParseMST (lk : String → Option Int) (s : String) : Option GoTime :=
  match parseMSTText s with
  | some (t, zoneName) => some (resolveZone lk t zoneName)
  | none => none

/-! ## Records and the Time Resolver (main.go lines 146 to 185) -/

/-- `Translation` (main.go line 155): one schedule row as raw text. -/
structure Translation where
  Date : String
  Tournament : String
  Region : String
  Time : String
  Broadcast : String
deriving DecidableEq

/-- `TypedTranslation` (main.go line 146): a row with resolved instants. -/
structure TypedTranslation where
  AlmatyTime : GoTime
  Tournament : String
  Region : String
  Broadcast : String
  OriginalTime : GoTime
  OriginalDate : String
deriving DecidableEq

/-- How `ToTypedTranslation` can abort the program: the slice expression
`t.Time[:len(t.Time)-3]` panicking on a negative bound, or a time-parse
failure panicking through the error check. -/
inductive ResolveErr where
  | sliceOutOfRange
  | parseError
deriving DecidableEq

/-- `strings.HasSuffix(s, "PT")` (main.go line 166). -/
def endsWithPT (s : String) : Bool :=
  match s.data.reverse with
  | 'T' :: 'P' :: _ => true
  | _ => false

/-- The Go slice `s[:len(s)-3]` for `3 ≤ len(s)` (main.go line 167); the
strings of this program are ASCII, so bytes and characters coincide. -/
def dropLast3 (s : String) : String :=
  String.mk (s.data.take (s.data.length - 3))

/-- `Translation.ToTypedTranslation` (main.go lines 163 to 185). The `PT`
branch drops the last three bytes (marker plus separating space) and parses
in `America/Los_Angeles`; when the time text is shorter than three bytes
the Go slice bound `len(t.Time)-3` is negative and the program faults.
The other branch parses with the `MST` layout under the process-local
abbreviation lookup `lk`. -/
def Translation.ToTypedTranslation (lk : String → Option Int) (t : Translation) : Except ResolveErr TypedTranslation :=
  if endsWithPT t.Time then
    if t.Time.data.length < 3 then .error .sliceOutOfRange
    else
      match goParseInLocationLA (t.Date ++ " " ++ dropLast3 t.Time) with
      | some timeVal =>
        .ok { OriginalDate := t.Date ++ " " ++ t.Time, Tournament := t.Tournament,
              Region := t.Region, AlmatyTime := timeVal.In almatyOffset,
              OriginalTime := timeVal, Broadcast := t.Broadcast }
      | none => .error .parseError
  else
    match goParseMST lk (t.Date ++ " " ++ t.Time) with
    | some timeVal =>
      .ok { OriginalDate := t.Date ++ " " ++ t.Time, Tournament := t.Tournament,
            Region := t.Region, AlmatyTime := timeVal.In almatyOffset,
            OriginalTime := timeVal, Broadcast := t.Broadcast }
    | none => .error .parseError

/-! ## Row and cell model (main.go lines 187 to 223) -/

/-- `Td` (main.go line 220): a cell's `class` attribute and character data. -/
structure Td where
  Key : String
  Value : String
deriving DecidableEq

/-- `Tr` (main.go line 197): the cells of one body row, in parse order. -/
structure Tr where
  Td : List Td
deriving DecidableEq

/-- The loop body of `Tr.GetField` (main.go lines 202 to 207): scan the
cells in order and return the first match. -/
def getFieldList : List Td → String → String
  | [], _ => ""
  | td :: rest, name => if td.Key == name then td.Value else getFieldList rest name

/-- `Tr.GetField` (main.go line 201): text of the first cell whose `class`
equals `name`, or the empty string when no cell matches. -/
def Tr.GetField (tr : Tr) (name : String) : String :=
  getFieldList tr.Td name

/-- `Tr.ToTranslation` (main.go line 210). -/
def Tr.ToTranslation (tr : Tr) : Translation :=
  { Date := tr.GetField "dateBody",
    Tournament := tr.GetField "tournamentBody",
    Region := tr.GetField "regionBody",
    Time := tr.GetField "timeBody",
    Broadcast := tr.GetField "broadcastBody" }

/-! ## Ampersand pre-processing (main.go line 105) -/

/-- Character-level effect of `strings.ReplaceAll(articleRaw, "&", "amp;")`:
the pattern is the single byte `&`, so every occurrence is replaced by the
four bytes `amp;` independently. -/
def escapeAmpChars : List Char → List Char
  | [] => []
  | c :: rest =>
    if c = '&' then 'a' :: 'm' :: 'p' :: ';' :: escapeAmpChars rest
    else c :: escapeAmpChars rest

/-- `strings.ReplaceAll(articleRaw, "&", "amp;")` (main.go line 105). -/
def escapeAmp (s : String) : String :=
  String.mk (escapeAmpChars s.data)

/-! ## Structural fragment decoding (main.go lines 104 to 117, 187 to 195)

`xml.Unmarshal` is modelled on well-formed element trees; a fragment that
is not well-formed markup fails tokenisation and the program aborts before
this point, so only well-formed trees reach the decoder. Following
`encoding/xml` on the `HtmlTable` struct: the root element must be
`table`; a `thead` child is consumed by `d.Skip()` because `THead` has
interface type, contributing nothing; each `tbody` child appends its `tr`
children to `TBody.Tr`; all other content is ignored. Inside a `tr`, each
`td` child becomes one `Td`, its `Key` the `class` attribute (empty when
absent) and its `Value` the element's direct character data. -/

inductive Xml where
  | elem (tag : String) (attrs : List (String × String)) (children : List Xml)
  | text (s : String)

/-- Whether a node is an element with the given tag. -/
def Xml.isTag (t : String) : Xml → Bool
  | .elem tg _ _ => tg == t
  | .text _ => false

/-- Direct character data of an element's children (Go `xml:",chardata"`). -/
def charData : List Xml → String
  | [] => ""
  | .text s :: rest => s ++ charData rest
  | .elem _ _ _ :: rest => charData rest

/-- First value of an attribute (Go `xml:"class,attr"`; empty if absent). -/
def attrValue (name : String) : List (String × String) → String
  | [] => ""
  | (k, v) :: rest => if k == name then v else attrValue name rest

/-- Decode one `td` element into a `Td`. -/
def decodeTd : Xml → Td
  | .elem _ attrs children => { Key := attrValue "class" attrs, Value := charData children }
  | .text _ => { Key := "", Value := "" }

/-- Decode one `tr` element into a `Tr`: its `td` children, in order. -/
def decodeTr : Xml → Tr
  | .elem _ _ children => { Td := (children.filter (Xml.isTag "td")).map decodeTd }
  | .text _ => { Td := [] }

/-- Rows contributed by the children of the `table` element: each `tbody`
child contributes its `tr` children in order; a `thead` child (or any
other content) contributes nothing. -/
def collectTrs : List Xml → List Tr
  | [] => []
  | .elem tg _ children :: rest =>
    (if tg == "tbody" then (children.filter (Xml.isTag "tr")).map decodeTr else [])
      ++ collectTrs rest
  | .text _ :: rest => collectTrs rest

/-- `TBody` (main.go line 193). -/
structure TBody where
  Tr : List Tr
deriving DecidableEq

/-- `HtmlTable` (main.go line 187). The `THead` field is not carried: it
has interface type in Go, so `encoding/xml` skips the `thead` element's
content without decoding it. -/
structure HtmlTable where
  TBody : TBody
deriving DecidableEq

/-- `xml.Unmarshal([]byte(articleRaw), &htmlTable)` on a well-formed
element tree: the root must be a `table` element. -/
def xmlUnmarshalTable : Xml → Option HtmlTable
  | .elem "table" _ children => some { TBody := { Tr := collectTrs children } }
  | _ => none

/-- The per-row loop of `parseArticleRawHtml` (main.go lines 112 to 116),
applied to the structural parse of the (already escaped) fragment. -/
def parseArticleTable (x : Xml) : Option (List Translation) :=
  match xmlUnmarshalTable x with
  | some htmlTable => some (htmlTable.TBody.Tr.map Tr.ToTranslation)
  | none => none

/-! ## Document navigation (main.go lines 55 to 86, 225 to 241)

The JSON document produced by `json.Unmarshal` is modelled as a tree of
mappings, arrays, strings and other scalars; a Go mapping is an
association list looked up by key (keys of an unmarshalled object are
unique). A failed Go type assertion or a missing key followed by an
assertion is a panic, modelled as `none`. -/

inductive Json where
  | str (s : String)
  | arr (xs : List Json)
  | obj (kvs : List (String × Json))
  | other

/-- Index a mapping: `jsonMap[k]` present or not. -/
def lookupKV (kvs : List (String × Json)) (k : String) : Option Json :=
  match kvs.find? (fun p => p.1 == k) with
  | some p => some p.2
  | none => none

/-- `getMap` (main.go line 225): nested mapping access; every step must hit
a present key holding a mapping, and the path must be non-empty. -/
def getMap (m : List (String × Json)) : List String → Option (List (String × Json))
  | [] => none
  | [k] =>
    match lookupKV m k with
    | some (.obj m2) => some m2
    | _ => none
  | k :: ks =>
    match lookupKV m k with
    | some (.obj m2) => getMap m2 ks
    | _ => none

/-- `getString` (main.go line 232): nested access ending in a string. -/
def getString (m : List (String × Json)) : List String → Option String
  | [] => none
  | [k] =>
    match lookupKV m k with
    | some (.str s) => some s
    | _ => none
  | k :: ks =>
    match lookupKV m k with
    | some (.obj m2) => getString m2 ks
    | _ => none

/-- `getSlice` (main.go line 239): a key holding an array. -/
def getSlice (m : List (String × Json)) (k : String) : Option (List Json)  :=
  match lookupKV m k with
  | some (.arr xs) => some xs
  | _ => none

/-- Whether a block is a mapping that does not contain the marker key
`tabs` (the scan continues past it). -/
def noTabs : Json → Bool
  | .obj kvs => (lookupKV kvs "tabs").isNone
  | _ => false

/-- The scan loop of `parsePage` (main.go lines 68 to 73): the first block
whose mapping contains the key `tabs` supplies `tabsSlice` via
`getSlice(tabs.(map), "tabs")`; a non-mapping block panics; if no block
matches, `tabsSlice` stays nil and the result is the empty list. -/
def findTabsSlice : List Json → Option (List Json)
  | [] => some []
  | b :: bs =>
    match b with
    | .obj kvs =>
      (match lookupKV kvs "tabs" with
       | some tv =>
         (match tv with
          | .obj tm => getSlice tm "tabs"
          | _ => none)
       | none => findTabsSlice bs)
    | _ => none

/-- One content block's fragment (main.go line 80):
`getString(block.(map), "richTextEditor", "articleRawHtml")`. -/
def blockFragment : Json → Option String
  | .obj kvs => getString kvs ["richTextEditor", "articleRawHtml"]
  | _ => none

/-- One tab's fragments (main.go lines 78 to 82): the tab must be a
mapping whose `blocks` key holds an array; its blocks' fragments in order. -/
def tabFragments : Json → Option (List String)
  | .obj kvs =>
    (match lookupKV kvs "blocks" with
     | some (.arr blocks) => blocks.mapM blockFragment
     | _ => none)
  | _ => none

/-- Fragments of all tabs, concatenated in navigation order. -/
def tabsFragments (tabs : List Json) : Option (List String) :=
  match tabs.mapM tabFragments with
  | some ls => some ls.flatten
  | none => none

/-- The Document Navigator: `parsePage` (main.go lines 55 to 86) from the
unmarshalled document up to the point where each fragment is handed to
`parseArticleRawHtml`, returning the fragments in navigation order. -/
def parsePageFragments (jsonMap : List (String × Json)) : Option (List String) :=
  match getMap jsonMap ["props", "pageProps"] with
  | none => none
  | some pp =>
  match getSlice pp "blocks" with
  | none => none
  | some blocks =>
  match findTabsSlice blocks with
  | none => none
  | some tabs => tabsFragments tabs

/-! ## The stable sort of the Pipeline Orchestrator (main.go lines 47 to 49)

`sort.SliceStable(res, less)` with
`less i j = res[i].AlmatyTime.Before(res[j].AlmatyTime)` is documented to
sort ascending for `less` while keeping the original order of elements
that compare equal either way; that behaviour is realised here by a
stable insertion sort (the stable ascending reordering for a given `less`
is unique, so any implementation of the documented contract agrees with
this one). -/

/-- The comparison closure of main.go line 48. -/
def ttLess (a b : TypedTranslation) : Bool :=
  a.AlmatyTime.Before b.AlmatyTime

/-- Insert a later record behind every earlier record that compares
strictly smaller, and in front of the rest. -/
def insertStable (x : TypedTranslation) : List TypedTranslation → List TypedTranslation
  | [] => [x]
  | y :: ys => if ttLess y x then y :: insertStable x ys else x :: y :: ys

/-- `sort.SliceStable(res, less)` (main.go line 47). -/
def sortTranslations : List TypedTranslation → List TypedTranslation
  | [] => []
  | x :: xs => insertStable x (sortTranslations xs)

/-- Removal of every `thead` child of the table element, whatever its
attributes and content. -/
def removeHeads : List Xml → List Xml
  | [] => []
  | .elem tg a ks :: rest =>
    if tg == "thead" then removeHeads rest else .elem tg a ks :: removeHeads rest
  | .text s :: rest => .text s :: removeHeads rest

/-! ## Helper lemmas -/

/-- No ampersand character survives the replacement of main.go line 105. -/
theorem amp_not_mem_escapeAmpChars (l : List Char) : '&' ∉ escapeAmpChars l := by
  induction l with
  | nil => simp [escapeAmpChars]
  | cons c rest ih =>
    by_cases h : c = '&' <;> simp [escapeAmpChars, h, ih]
    intro hc
    exact h hc.symm

/-- A scan over cells none of which carries the wanted label ends empty. -/
theorem getFieldList_missing (tds : List Td) (name : String)
    (h : ∀ td ∈ tds, td.Key ≠ name) : getFieldList tds name = "" := by
  induction tds with
  | nil => rfl
  | cons td rest ih =>
    have hk : (td.Key == name) = false := beq_eq_false_iff_ne.mpr (h td (List.mem_cons_self td rest))
    simp [getFieldList, hk]
    exact ih fun x hx => h x (List.mem_cons_of_mem td hx)

/-- The scan stops at the first cell carrying the wanted label. -/
theorem getFieldList_first (tds1 : List Td) (td : Td) (tds2 : List Td) (name : String)
    (h1 : ∀ x ∈ tds1, x.Key ≠ name) (h2 : td.Key = name) :
    getFieldList (tds1 ++ td :: tds2) name = td.Value := by
  induction tds1 with
  | nil => simp [getFieldList, h2]
  | cons x rest ih =>
    have hk : (x.Key == name) = false := beq_eq_false_iff_ne.mpr (h1 x (List.mem_cons_self x rest))
    simp [getFieldList, hk]
    exact ih fun y hy => h1 y (List.mem_cons_of_mem x hy)

/-- Dropping the `thead` children does not change the collected rows. -/
theorem collectTrs_removeHeads (cs : List Xml) : collectTrs (removeHeads cs) = collectTrs cs := by
  induction cs with
  | nil => rfl
  | cons c rest ih =>
    cases c with
    | text s =>
      simp only [removeHeads, collectTrs]
      exact ih
    | elem tg a ks =>
      by_cases h : (tg == "thead") = true
      · have htg : tg = "thead" := eq_of_beq h
        subst htg
        simp only [removeHeads, if_pos h, collectTrs, ih]
        rfl
      · simp only [removeHeads, if_neg h, collectTrs, ih]

/-- The scan of main.go lines 68 to 73 passes over every block that is a
mapping without the marker key. -/
theorem findTabsSlice_skip (bs1 : List Json) (b : Json) (bs2 : List Json)
    (h : ∀ x ∈ bs1, noTabs x = true) :
    findTabsSlice (bs1 ++ b :: bs2) = findTabsSlice (b :: bs2) := by
  induction bs1 with
  | nil => rfl
  | cons x rest ih =>
    have hx := h x (List.mem_cons_self x rest)
    cases x with
    | obj kvs =>
      have hlk : lookupKV kvs "tabs" = none := by
        simpa [noTabs, Option.isNone_iff_eq_none] using hx
      simp only [List.cons_append, findTabsSlice, hlk]
      exact ih fun y hy => h y (List.mem_cons_of_mem _ hy)
    | str s => simp [noTabs] at hx
    | arr xs => simp [noTabs] at hx
    | other => simp [noTabs] at hx

/-- Inserting behind the strictly smaller records is a permutation. -/
theorem insertStable_perm (x : TypedTranslation) (l : List TypedTranslation) :
    (insertStable x l).Perm (x :: l) := by
  induction l with
  | nil => exact List.Perm.refl _
  | cons y ys ih =>
    by_cases h : ttLess y x = true
    · simp only [insertStable, if_pos h]
      exact (ih.cons y).trans (List.Perm.swap x y ys)
    · simp only [insertStable, if_neg h]
      exact List.Perm.refl _

/-- The sort of main.go line 47 permutes its input. -/
theorem sortTranslations_perm (l : List TypedTranslation) : (sortTranslations l).Perm l := by
  induction l with
  | nil => exact List.Perm.refl _
  | cons x xs ih =>
    exact (insertStable_perm x (sortTranslations xs)).trans (ih.cons x)

/-- Insertion preserves ascending order of the target instants. -/
theorem insertStable_pairwise (x : TypedTranslation) (l : List TypedTranslation)
    (h : List.Pairwise (fun a b => a.AlmatyTime.unix ≤ b.AlmatyTime.unix) l) :
    List.Pairwise (fun a b => a.AlmatyTime.unix ≤ b.AlmatyTime.unix) (insertStable x l) := by
  induction l with
  | nil => simp [insertStable]
  | cons y ys ih =>
    rcases List.pairwise_cons.mp h with ⟨hy, hys⟩
    by_cases hc : ttLess y x = true
    · have hyx : y.AlmatyTime.unix ≤ x.AlmatyTime.unix :=
        le_of_lt (by simpa [ttLess, GoTime.Before] using hc)
      simp only [insertStable, if_pos hc]
      refine List.pairwise_cons.mpr ⟨?_, ih hys⟩
      intro z hz
      rcases List.mem_cons.mp ((insertStable_perm x ys).mem_iff.mp hz) with h1 | h2
      · exact h1 ▸ hyx
      · exact hy z h2
    · have hxy : x.AlmatyTime.unix ≤ y.AlmatyTime.unix := by
        have := (by simpa [ttLess, GoTime.Before] using hc : ¬ y.AlmatyTime.unix < x.AlmatyTime.unix)
        exact le_of_not_lt this
      simp only [insertStable, if_neg hc]
      refine List.pairwise_cons.mpr ⟨?_, h⟩
      intro z hz
      rcases List.mem_cons.mp hz with h1 | h2
      · exact h1 ▸ hxy
      · exact le_trans hxy (hy z h2)

/-- The sorted output is ascending in the target instant. -/
theorem sortTranslations_pairwise (l : List TypedTranslation) :
    List.Pairwise (fun a b => a.AlmatyTime.unix ≤ b.AlmatyTime.unix) (sortTranslations l) := by
  induction l with
  | nil => simp [sortTranslations]
  | cons x xs ih => exact insertStable_pairwise x (sortTranslations xs) ih

/-- Insertion never reorders records sharing one target instant. -/
theorem filter_insertStable (k : Int) (x : TypedTranslation) (l : List TypedTranslation) :
    (insertStable x l).filter (fun r => r.AlmatyTime.unix == k) =
      (x :: l).filter (fun r => r.AlmatyTime.unix == k) := by
  induction l with
  | nil => rfl
  | cons y ys ih =>
    by_cases hc : ttLess y x = true
    · simp only [insertStable, if_pos hc]
      by_cases hx : (x.AlmatyTime.unix == k) = true
      · have hxk : x.AlmatyTime.unix = k := eq_of_beq hx
        have hyx : y.AlmatyTime.unix < x.AlmatyTime.unix := by
          simpa [ttLess, GoTime.Before] using hc
        have hyk : (y.AlmatyTime.unix == k) = false := by
          apply beq_eq_false_iff_ne.mpr
          intro hk
          rw [hxk] at hyx
          rw [hk] at hyx
          exact lt_irrefl k hyx
        simp only [List.filter_cons, hyk, hx, ih, if_pos, if_neg, Bool.false_eq_true, if_false,
          if_true]
      · have hx' : (x.AlmatyTime.unix == k) = false := by
          cases hxv : (x.AlmatyTime.unix == k) with
          | true => exact absurd hxv hx
          | false => rfl
        simp only [List.filter_cons, hx', ih, Bool.false_eq_true, if_false]
    · simp only [insertStable, if_neg hc]

/-- The sort never reorders records sharing one target instant. -/
theorem filter_sortTranslations (k : Int) (l : List TypedTranslation) :
    (sortTranslations l).filter (fun r => r.AlmatyTime.unix == k) =
      l.filter (fun r => r.AlmatyTime.unix == k) := by
  induction l with
  | nil => rfl
  | cons x xs ih =>
    have h1 := filter_insertStable k x (sortTranslations xs)
    simp only [sortTranslations, h1, List.filter_cons, ih]

/-! ## Claims -/

/-- C1: the pre-processing of the Row Parser is intended to escape each bare
ampersand to its entity form so that the decoded text still contains the
literal ampersand; the replacement of main.go line 105 instead substitutes
the four characters `amp;` for each `&` (the leading ampersand of the
entity form `&amp;` is missing from the replacement string), so the
fragment `A&B` becomes `Aamp;B` and no output of the replacement contains
an ampersand character at all — the decoded text therefore cannot contain
the literal `&` the specification requires. -/
theorem escapeAmp_drops_every_ampersand :
    escapeAmp "<td>A&B</td>" = "<td>Aamp;B</td>" ∧
      ∀ s : String, (escapeAmp s).data.contains '&' = false := by
  refine ⟨rfl, fun s => ?_⟩
  have h := amp_not_mem_escapeAmpChars s.data
  simpa [escapeAmp] using h

/-- C2 counterexample: the claim says the time string `6:00 PM XXX` (an
unrecognized trailing abbreviation) makes the Time Resolver fail with an
`UnresolvableTime` error; in fact Go's `time.Parse` accepts any
syntactically well-formed abbreviation, so the resolver succeeds and
produces an instant — here under a process-local zone that knows no
abbreviations at all. -/
theorem toTypedTranslation_XXX_is_ok :
    Translation.ToTypedTranslation (fun _ => none)
      { Date := "03-15-2024", Tournament := "", Region := "",
        Time := "6:00 PM XXX", Broadcast := "" } =
      .ok { AlmatyTime := { unix := civilUnixUTC { year := 2024, month := 3, day := 15, hour := 18, minute := 0 }, offset := 18000 },
            Tournament := "", Region := "", Broadcast := "",
            OriginalTime := { unix := civilUnixUTC { year := 2024, month := 3, day := 15, hour := 18, minute := 0 }, offset := 0 },
            OriginalDate := "03-15-2024 6:00 PM XXX" } := rfl

/-- C2 (amended): for every process-local zone in which the abbreviation
`XXX` is unknown (true of all real zone databases), resolving
`6:00 PM XXX` does not fail: Go `time.Parse` fabricates a zone named `XXX`
with offset zero, so the source instant is the wall clock read at UTC. -/
theorem toTypedTranslation_unknown_abbrev_ok (lk : String → Option Int) (h : lk "XXX" = none) :
    Translation.ToTypedTranslation lk
      { Date := "03-15-2024", Tournament := "", Region := "",
        Time := "6:00 PM XXX", Broadcast := "" } =
      .ok { AlmatyTime := { unix := civilUnixUTC { year := 2024, month := 3, day := 15, hour := 18, minute := 0 }, offset := 18000 },
            Tournament := "", Region := "", Broadcast := "",
            OriginalTime := { unix := civilUnixUTC { year := 2024, month := 3, day := 15, hour := 18, minute := 0 }, offset := 0 },
            OriginalDate := "03-15-2024 6:00 PM XXX" } := by
  have hg : goParseMST lk "03-15-2024 6:00 PM XXX" =
      some { unix := civilUnixUTC { year := 2024, month := 3, day := 15, hour := 18, minute := 0 }, offset := 0 } := by
    have hsyn : parseMSTText "03-15-2024 6:00 PM XXX" =
        some ({ year := 2024, month := 3, day := 15, hour := 18, minute := 0 }, "XXX") := rfl
    unfold goParseMST
    rw [hsyn]
    show some (resolveZone lk { year := 2024, month := 3, day := 15, hour := 18, minute := 0 } "XXX") = _
    unfold resolveZone
    rw [h]
    rfl
  unfold Translation.ToTypedTranslation
  rw [show endsWithPT "6:00 PM XXX" = false from rfl]
  simp only [Bool.false_eq_true, if_false]
  rw [show ("03-15-2024" ++ " " ++ "6:00 PM XXX") = "03-15-2024 6:00 PM XXX" from rfl, hg]
  rfl

/-- C2 witness: the amended fact at a concrete process-local zone that
recognises `PST` but not `XXX`. -/
theorem toTypedTranslation_unknown_abbrev_ok_witness :
    Translation.ToTypedTranslation (fun s => if s = "PST" then some (-28800) else none)
      { Date := "03-15-2024", Tournament := "", Region := "",
        Time := "6:00 PM XXX", Broadcast := "" } =
      .ok { AlmatyTime := { unix := civilUnixUTC { year := 2024, month := 3, day := 15, hour := 18, minute := 0 }, offset := 18000 },
            Tournament := "", Region := "", Broadcast := "",
            OriginalTime := { unix := civilUnixUTC { year := 2024, month := 3, day := 15, hour := 18, minute := 0 }, offset := 0 },
            OriginalDate := "03-15-2024 6:00 PM XXX" } :=
  toTypedTranslation_unknown_abbrev_ok (fun s => if s = "PST" then some (-28800) else none) rfl

/-- C3 counterexample: the claim says a repeated label resolves to the text
of the last occurrence; in a row whose cells are `dateBody ↦ A` then
`dateBody ↦ B`, the populated date field is `A`, the first occurrence's
text, not the last occurrence's text `B`. -/
theorem toTranslation_duplicate_label_first :
    (Tr.mk [Td.mk "dateBody" "A", Td.mk "dateBody" "B"]).ToTranslation.Date = "A" ∧
      ("A" : String) ≠ "B" := by
  exact ⟨rfl, by decide⟩

/-- C3 (amended): when a label repeats among a row's cells, the lookup of
main.go lines 201 to 208 resolves it to the text of the first occurrence
in parse order (the scan returns at the first match), and later duplicate
cells are ignored. -/
theorem getField_first_occurrence_wins (name : String) (tds1 : List Td) (td : Td)
    (tds2 : List Td) (h1 : ∀ x ∈ tds1, x.Key ≠ name) (h2 : td.Key = name) :
    Tr.GetField { Td := tds1 ++ td :: tds2 } name = td.Value :=
  getFieldList_first tds1 td tds2 name h1 h2

/-- C3 witness: the amended fact on the duplicated `dateBody` row. -/
theorem getField_first_occurrence_wins_witness :
    Tr.GetField { Td := [Td.mk "dateBody" "A", Td.mk "dateBody" "B"] } "dateBody" = "A" :=
  getField_first_occurrence_wins "dateBody" [] (Td.mk "dateBody" "A") [Td.mk "dateBody" "B"]
    (by simp) rfl

/-- C4: looking up a label absent from a row's cells yields the empty
string; `Tr.GetField` is a total function, so the lookup can never fail. -/
theorem getField_missing_label_empty (tr : Tr) (name : String)
    (h : ∀ td ∈ tr.Td, td.Key ≠ name) : tr.GetField name = "" :=
  getFieldList_missing tr.Td name h

/-- C4 witness: a row carrying only a tournament cell has an empty date. -/
theorem getField_missing_label_empty_witness :
    Tr.GetField { Td := [Td.mk "tournamentBody" "Summer Showdown"] } "dateBody" = "" :=
  getField_missing_label_empty { Td := [Td.mk "tournamentBody" "Summer Showdown"] } "dateBody"
    (by decide)

/-- C5: the final record sequence of the Pipeline Orchestrator
(main.go lines 47 to 49) is a permutation of its input that is ascending
in the target instant, and for every instant value the subsequence of
records carrying exactly that target instant is unchanged — records with
identical target instants keep their original relative order (navigation
order, then row order, which is the order of the input list). -/
theorem sortTranslations_sorted_and_stable (l : List TypedTranslation) :
    List.Pairwise (fun a b => a.AlmatyTime.unix ≤ b.AlmatyTime.unix) (sortTranslations l) ∧
      (∀ k : Int, (sortTranslations l).filter (fun r => r.AlmatyTime.unix == k) =
        l.filter (fun r => r.AlmatyTime.unix == k)) ∧
      (sortTranslations l).Perm l :=
  ⟨sortTranslations_pairwise l, fun k => filter_sortTranslations k l, sortTranslations_perm l⟩

/-- C6: for every record the Time Resolver returns, the target instant and
the source instant are the same absolute time — and in general converting
any time value to the Almaty reporting zone with `In` changes only the
offset, never the instant. -/
theorem toTypedTranslation_same_instant :
    (∀ (lk : String → Option Int) (t : Translation) (tt : TypedTranslation),
      Translation.ToTypedTranslation lk t = .ok tt →
        tt.AlmatyTime.unix = tt.OriginalTime.unix) ∧
      ∀ v : GoTime, (v.In almatyOffset).unix = v.unix := by
  constructor
  · intro lk t tt h
    unfold Translation.ToTypedTranslation at h
    split at h
    next =>
      split at h
      next => cases h
      next =>
        split at h
        next v heq =>
          injection h with h3
          rw [← h3]
          rfl
        next => cases h
    next =>
      split at h
      next v heq =>
        injection h with h3
        rw [← h3]
        rfl
      next => cases h
  · intro v
    rfl

/-- C6 witness: the spec's end-to-end row, resolved, carries the same
absolute instant in both fields. -/
theorem toTypedTranslation_same_instant_witness :
    (GoTime.mk (civilUnixUTC { year := 2024, month := 3, day := 16, hour := 1, minute := 0 }) 18000).unix =
      (GoTime.mk (civilUnixUTC { year := 2024, month := 3, day := 16, hour := 1, minute := 0 }) (-25200)).unix :=
  toTypedTranslation_same_instant.1 (fun _ => none)
    { Date := "03-15-2024", Tournament := "Summer Showdown", Region := "NA",
      Time := "6:00 PM PT", Broadcast := "Twitch" }
    { AlmatyTime := { unix := civilUnixUTC { year := 2024, month := 3, day := 16, hour := 1, minute := 0 }, offset := 18000 },
      Tournament := "Summer Showdown", Region := "NA", Broadcast := "Twitch",
      OriginalTime := { unix := civilUnixUTC { year := 2024, month := 3, day := 16, hour := 1, minute := 0 }, offset := -25200 },
      OriginalDate := "03-15-2024 6:00 PM PT" }
    rfl

/-- C7: the Document Navigator selects the tabs holder by a linear scan
for presence of the key `tabs` — whatever mappings without that key
precede it and whatever siblings follow it — and returns the fragments of
the selected tabs in source order (`tabsFragments` concatenates each tab's
blocks' fragments in list order). -/
theorem parsePageFragments_scan_by_key (m pp : List (String × Json)) (bs1 bs2 : List Json)
    (bkvs tkvs : List (String × Json)) (tabs : List Json)
    (hpp : getMap m ["props", "pageProps"] = some pp)
    (hbl : getSlice pp "blocks" = some (bs1 ++ Json.obj bkvs :: bs2))
    (hpre : ∀ x ∈ bs1, noTabs x = true)
    (hb : lookupKV bkvs "tabs" = some (Json.obj tkvs))
    (ht : getSlice tkvs "tabs" = some tabs) :
    parsePageFragments m = tabsFragments tabs := by
  simp only [parsePageFragments, hpp, hbl]
  rw [findTabsSlice_skip bs1 _ bs2 hpre]
  simp only [findTabsSlice, hb, ht]

/-- C7 witness: a document whose block list holds an unrelated mapping,
then the tabs holder, then an ignored sibling; the navigator returns the
two fragments of the single tab, in order. -/
theorem parsePageFragments_scan_by_key_witness :
    parsePageFragments
      [("props", Json.obj [("pageProps", Json.obj [("blocks", Json.arr
        [Json.obj [("unrelated", Json.str "noise")],
         Json.obj [("tabs", Json.obj [("tabs", Json.arr
           [Json.obj [("blocks", Json.arr
             [Json.obj [("richTextEditor", Json.obj [("articleRawHtml", Json.str "fragmentOne")])],
              Json.obj [("richTextEditor", Json.obj [("articleRawHtml", Json.str "fragmentTwo")])]])]])])],
         Json.obj [("ignored", Json.str "tail")]])])])] =
    tabsFragments
      [Json.obj [("blocks", Json.arr
        [Json.obj [("richTextEditor", Json.obj [("articleRawHtml", Json.str "fragmentOne")])],
         Json.obj [("richTextEditor", Json.obj [("articleRawHtml", Json.str "fragmentTwo")])]])]] :=
  parsePageFragments_scan_by_key _ _
    [Json.obj [("unrelated", Json.str "noise")]]
    [Json.obj [("ignored", Json.str "tail")]]
    [("tabs", Json.obj [("tabs", Json.arr
       [Json.obj [("blocks", Json.arr
         [Json.obj [("richTextEditor", Json.obj [("articleRawHtml", Json.str "fragmentOne")])],
          Json.obj [("richTextEditor", Json.obj [("articleRawHtml", Json.str "fragmentTwo")])]])]])])]
    [("tabs", Json.arr
       [Json.obj [("blocks", Json.arr
         [Json.obj [("richTextEditor", Json.obj [("articleRawHtml", Json.str "fragmentOne")])],
          Json.obj [("richTextEditor", Json.obj [("articleRawHtml", Json.str "fragmentTwo")])]])]])]
    _ rfl rfl (by decide) rfl rfl

/-- C8: the records of a parsed fragment are derived from the body rows
only: removing every `thead` element of the table — whatever attributes
and content each had, well-formed structure being required of the whole
fragment by the tokenizer before this point — leaves the parse result
unchanged, so the head section never influences the output. -/
theorem parseArticleTable_ignores_thead (attrs : List (String × String)) (children : List Xml) :
    parseArticleTable (.elem "table" attrs (removeHeads children)) =
      parseArticleTable (.elem "table" attrs children) := by
  show some (List.map Tr.ToTranslation (collectTrs (removeHeads children))) =
    some (List.map Tr.ToTranslation (collectTrs children))
  rw [collectTrs_removeHeads]

/-- C9: a record whose time text ends in the Pacific marker `PT` is
resolved by stripping the marker (with its separating byte) and parsing
the date plus time of day in `America/Los_Angeles` under that zone's
seasonal offset rule, independently of the process-local zone lookup, and
the parsed instant is the source instant (the target instant is the same
instant re-expressed for Almaty). -/
theorem toTypedTranslation_PT_la (lk : String → Option Int) (t : Translation) (v : GoTime)
    (h1 : endsWithPT t.Time = true) (h2 : 3 ≤ t.Time.data.length)
    (h3 : goParseInLocationLA (t.Date ++ " " ++ dropLast3 t.Time) = some v) :
    Translation.ToTypedTranslation lk t =
      .ok { AlmatyTime := v.In almatyOffset, Tournament := t.Tournament, Region := t.Region,
            Broadcast := t.Broadcast, OriginalTime := v, OriginalDate := t.Date ++ " " ++ t.Time } := by
  unfold Translation.ToTypedTranslation
  rw [h1, if_neg (Nat.not_lt.mpr h2), h3]
  rfl

/-- C9 witness: the spec's example — date `03-15-2024`, time `6:00 PM PT` —
resolves to 2024-03-15 18:00 in Los Angeles, which that day (daylight
saving, offset -7h) is the absolute instant 2024-03-16 01:00 UTC. -/
theorem toTypedTranslation_PT_la_witness :
    Translation.ToTypedTranslation (fun _ => none)
      { Date := "03-15-2024", Tournament := "Summer Showdown", Region := "NA",
        Time := "6:00 PM PT", Broadcast := "Twitch" } =
      .ok { AlmatyTime := { unix := civilUnixUTC { year := 2024, month := 3, day := 16, hour := 1, minute := 0 }, offset := 18000 },
            Tournament := "Summer Showdown", Region := "NA", Broadcast := "Twitch",
            OriginalTime := { unix := civilUnixUTC { year := 2024, month := 3, day := 16, hour := 1, minute := 0 }, offset := -25200 },
            OriginalDate := "03-15-2024 6:00 PM PT" } :=
  toTypedTranslation_PT_la (fun _ => none)
    { Date := "03-15-2024", Tournament := "Summer Showdown", Region := "NA",
      Time := "6:00 PM PT", Broadcast := "Twitch" }
    { unix := civilUnixUTC { year := 2024, month := 3, day := 16, hour := 1, minute := 0 }, offset := -25200 }
    rfl (by decide) rfl

/-- C10: a record whose time text ends in `PT` but is shorter than three
bytes (such as the time text `PT` itself) makes the marker-stripping slice
`t.Time[:len(t.Time)-3]` use a negative bound: resolution aborts with the
out-of-range runtime fault, not with a time-parse error. -/
theorem toTypedTranslation_PT_short_fault (lk : String → Option Int) (t : Translation)
    (h1 : endsWithPT t.Time = true) (h2 : t.Time.data.length < 3) :
    Translation.ToTypedTranslation lk t = .error .sliceOutOfRange := by
  unfold Translation.ToTypedTranslation
  rw [h1]
  simp only [if_pos h2, if_true]

/-- C10 witness: the time text `PT` itself faults. -/
theorem toTypedTranslation_PT_short_fault_witness :
    Translation.ToTypedTranslation (fun _ => none)
      { Date := "03-15-2024", Tournament := "", Region := "", Time := "PT", Broadcast := "" } =
      .error .sliceOutOfRange :=
  toTypedTranslation_PT_short_fault (fun _ => none)
    { Date := "03-15-2024", Tournament := "", Region := "", Time := "PT", Broadcast := "" }
    rfl (by decide)
